import Mathlib

/-!
Verification of the LiteZ UI framework core (src/litez1.js, src/litez.js)
against its natural-language specification.

The development shallowly embeds the relevant parts of the source:
JavaScript values become an inductive `JSVal`, the reactive state
container becomes an explicit record with an event log (notifications are
returned as data, which models "fires synchronously before the call
returns"), the DOM becomes a list of identified nodes, and the template
compiler's intermediate tree becomes an inductive type.  Exceptions are
modelled with `Except` / `Option`; a total Lean function models the
source's "never throws outward" behaviour.  String primitives used by the
source (`split(".")`, `trim()`) are implemented over character lists so
that every definition evaluates inside the kernel.
-/

namespace LiteZ

/-! ## String primitives of the JavaScript runtime -/

/-- Whitespace recognised by `String.prototype.trim` (the ASCII subset the
source can meet in attribute values and expressions). -/
def isJsWhite (c : Char) : Bool :=
  c = ' ' || c = '\t' || c = '\n' || c = '\r'

/-- `trim()` on a character list: drop leading and trailing whitespace. -/
def trimChars (l : List Char) : List Char :=
  ((l.dropWhile isJsWhite).reverse.dropWhile isJsWhite).reverse

/-- `String.prototype.trim`. -/
def jsTrim (s : String) : String :=
  ⟨trimChars s.data⟩

/-- Accumulator pass for `split(".")`. -/
def splitDotAux : List Char → List Char → List String
  | [], acc => [⟨acc.reverse⟩]
  | c :: rest, acc =>
      if c = '.' then ⟨acc.reverse⟩ :: splitDotAux rest []
      else splitDotAux rest (c :: acc)

/-- `String.prototype.split(".")`: always returns a nonempty list, with
`""` split to `[""]`, exactly as in JavaScript. -/
def jsSplitDot (s : String) : List String :=
  splitDotAux s.data []

theorem splitDotAux_ne_nil (l acc : List Char) : splitDotAux l acc ≠ [] := by
  induction l generalizing acc with
  | nil => simp [splitDotAux]
  | cons c rest ih =>
      by_cases hc : c = '.'
      · simp [splitDotAux, hc]
      · simpa [splitDotAux, hc] using ih (c :: acc)

theorem jsSplitDot_ne_nil (s : String) : jsSplitDot s ≠ [] :=
  splitDotAux_ne_nil _ _

/-! ## JavaScript value model -/

/-- A JavaScript runtime value, as far as the claims need it.  Objects are
structural field lists (first binding wins on lookup, mirroring unique JS
own-property keys); `fn` stands for an opaque function value identified by
a number. -/
inductive JSVal where
  | undef : JSVal
  | jsnull : JSVal
  | bool : Bool → JSVal
  | num : Int → JSVal
  | str : String → JSVal
  | obj : List (String × JSVal) → JSVal
  | arr : List JSVal → JSVal
  | fn : Nat → JSVal

namespace JSVal

/-- JavaScript truthiness (NaN and BigInt are not modelled). -/
def truthy : JSVal → Bool
  | .undef => false
  | .jsnull => false
  | .bool b => b
  | .num n => n != 0
  | .str s => s ≠ ""
  | .obj _ => true
  | .arr _ => true
  | .fn _ => true

/-- `typeof v === "object"`.  Note `typeof null` is `"object"` in
JavaScript, and `typeof` of a function is `"function"`. -/
def typeofObject : JSVal → Bool
  | .jsnull => true
  | .obj _ => true
  | .arr _ => true
  | _ => false

def isUndef : JSVal → Bool
  | .undef => true
  | _ => false

def isNull : JSVal → Bool
  | .jsnull => true
  | _ => false

def isStr : JSVal → Bool
  | .str _ => true
  | _ => false

def isArr : JSVal → Bool
  | .arr _ => true
  | _ => false

/-- Property access `v[key]` on an object-like value; anything missing is
`undefined`.  Array access supports `length` and decimal indices, which is
all the source ever uses. -/
def getProp : JSVal → String → JSVal
  | .obj fields, key => (fields.lookup key).getD .undef
  | .arr elems, key =>
      if key = "length" then .num elems.length
      else match key.toNat? with
        | some i => (elems.get? i).getD .undef
        | none => .undef
  | _, _ => .undef

end JSVal

/-- `LiteZ.isRef` (litez1.js:196-203): a truthy object with a `value`
property whose `watch` or `onChange` member is not `undefined`.  Arrays
have no such own properties, so only plain objects qualify. -/
def isRef : JSVal → Bool
  | .obj fields =>
      (fields.lookup "value").isSome &&
        (!((fields.lookup "watch").getD .undef).isUndef ||
          !((fields.lookup "onChange").getD .undef).isUndef)
  | _ => false

/-- `LiteZ.unref` (litez1.js:209-211): unwrap a ref-like value to its
`value` member. -/
def unref (v : JSVal) : JSVal :=
  if isRef v then v.getProp "value" else v

/-! ## Expression evaluator (`LiteZ.evaluate`, litez1.js:49-64 and
litez.js:67-82; the two copies are textually identical) -/

/-- The body of the `for (const part of parts)` loop in `evaluate`, with
`none` for the early `return undefined`:
`if (value === null || typeof value !== "object") return undefined;
 value = value?.[part.trim()]; if (value === undefined) return undefined`. -/
def walkParts : JSVal → List String → Option JSVal
  | value, [] => some value
  | value, part :: rest =>
      if value.isNull then none
      else if value.typeofObject then
        let next := value.getProp (jsTrim part)
        if next.isUndef then none else walkParts next rest
      else none

/-- `LiteZ.evaluate(expression, state)`: split on `.`, walk the snapshot,
unwrap a ref-like result.  The JS `try`/`catch` routes any internal
exception to the error handler and returns `undefined`; the loop body
itself cannot throw, and the embedding is a total function, which is the
model of "never throws to its caller". -/
def evaluate (expression : String) (state : JSVal) : JSVal :=
  match walkParts state (jsSplitDot expression) with
  | none => .undef
  | some v => unref v

/-! ## VNode constructor (`LiteZ.h`, litez1.js:328-340 / litez.js:337-347) -/

/-- The record literal `{ tag, props, children, key, flags: 0 }` returned
by `h`; `children` is always an array. -/
structure VNodeRec where
  tag : String
  props : JSVal
  children : List JSVal
  key : JSVal
  flags : Nat

/-- The catch-branch fallback `{ tag: "div", props: {}, children: [],
key: null, flags: 0 }`. -/
def fallbackVNode : VNodeRec :=
  { tag := "div", props := .obj [], children := [], key := .jsnull, flags := 0 }

/-- `children = Array.isArray(children) ? children : [children]`. -/
def asChildrenArray : JSVal → List JSVal
  | .arr l => l
  | v => [v]

/-- `LiteZ.h(tag, props, children, key)`.  The guard
`!tag || typeof tag !== "string"` throws, and the catch branch returns the
fallback VNode; any non-string tag, and the falsy string `""`, take that
path. -/
def h (tag props children key : JSVal) : VNodeRec :=
  match tag with
  | .str s =>
      if s = "" then fallbackVNode
      else { tag := s, props := props, children := asChildrenArray children,
             key := key, flags := 0 }
  | _ => fallbackVNode

/-! ## Theorems for C5 and C9 -/

/-- **C5**: `evaluate(expr, snapshot)` splits `expr` on `.` and walks the
snapshot segment by segment; it returns `undefined` whenever any
intermediate value (including the snapshot itself) is `null` or not an
object, or whenever a looked-up value is `undefined`; a ref-like terminal
value is unwrapped to its `value` member; and the embedding is a total
function, modelling that `evaluate` never throws to its caller. -/
theorem evaluate_walks_dotted_path (expr : String) (s : JSVal) :
    (evaluate expr s =
      match walkParts s (jsSplitDot expr) with
      | none => .undef
      | some v => unref v) ∧
    ((s.isNull || !s.typeofObject) = true → evaluate expr s = .undef) ∧
    (∀ (value : JSVal) (part : String) (rest : List String),
        (value.isNull || !value.typeofObject) = true →
        walkParts value (part :: rest) = none) ∧
    (∀ (value : JSVal) (part : String) (rest : List String),
        value.isNull = false → value.typeofObject = true →
        (value.getProp (jsTrim part)).isUndef = true →
        walkParts value (part :: rest) = none) ∧
    (∀ (value : JSVal) (part : String) (rest : List String),
        value.isNull = false → value.typeofObject = true →
        (value.getProp (jsTrim part)).isUndef = false →
        walkParts value (part :: rest) =
          walkParts (value.getProp (jsTrim part)) rest) ∧
    (∀ v : JSVal, walkParts s (jsSplitDot expr) = some v →
        isRef v = true → evaluate expr s = v.getProp "value") := by
  have hstep : ∀ (value : JSVal) (part : String) (rest : List String),
      (value.isNull || !value.typeofObject) = true →
      walkParts value (part :: rest) = none := by
    intro value part rest hbad
    rcases Bool.or_eq_true_iff.mp hbad with hb | hb
    · simp [walkParts, hb]
    · have hb' : value.typeofObject = false := by
        simpa using hb
      by_cases hn : value.isNull = true
      · simp [walkParts, hn]
      · simp [walkParts, Bool.eq_false_iff.mpr hn, hb']
  refine ⟨rfl, ?_, hstep, ?_, ?_, ?_⟩
  · intro hbad
    obtain ⟨p, rest, hps⟩ := List.exists_cons_of_ne_nil (jsSplitDot_ne_nil expr)
    unfold evaluate
    rw [hps, hstep s p rest hbad]
  · intro value part rest hnn hobj hund
    simp [walkParts, hnn, hobj, hund]
  · intro value part rest hnn hobj hund
    simp [walkParts, hnn, hobj, hund]
  · intro v hwalk href
    unfold evaluate
    rw [hwalk]
    simp [unref, href]

/-- Witness for C5: a concrete snapshot with a ref-like leaf.  The path
`user.profile` resolves through one object level, and the terminal ref
`{ value: 7, watch: fn }` is unwrapped to `7`. -/
theorem evaluate_walks_dotted_path_witness :
    evaluate "user.profile"
        (.obj [("user", .obj [("profile",
            .obj [("value", .num 7), ("watch", .fn 0)])])]) = .num 7 := by
  exact (evaluate_walks_dotted_path "user.profile"
      (.obj [("user", .obj [("profile",
          .obj [("value", .num 7), ("watch", .fn 0)])])])).2.2.2.2.2
      (.obj [("value", .num 7), ("watch", .fn 0)]) rfl rfl

/-- **C9**: `h` is total (the embedding is a Lean function into
`VNodeRec`, whose `children` field is an array by construction); a
non-array `children` argument is wrapped into a one-element array on the
success path; and an absent (undefined/null) or non-string tag yields the
fallback VNode `{tag: "div", props: {}, children: [], key: null,
flags: 0}` instead of an error escaping to the caller. -/
theorem h_total_with_fallback (t p c k : JSVal) :
    ((h t p c k).children = asChildrenArray c ∨ h t p c k = fallbackVNode) ∧
    (t.isStr = false → h t p c k = fallbackVNode) ∧
    (∀ s : String, t = .str s → s ≠ "" →
        h t p c k = { tag := s, props := p, children := asChildrenArray c,
                      key := k, flags := 0 }) ∧
    (c.isArr = false → asChildrenArray c = [c]) := by
  refine ⟨?_, ?_, ?_, ?_⟩
  · match t with
    | .str s =>
        by_cases hs : s = ""
        · exact Or.inr (by simp [h, hs])
        · exact Or.inl (by simp [h, hs])
    | .undef => exact Or.inr rfl
    | .jsnull => exact Or.inr rfl
    | .bool _ => exact Or.inr rfl
    | .num _ => exact Or.inr rfl
    | .obj _ => exact Or.inr rfl
    | .arr _ => exact Or.inr rfl
    | .fn _ => exact Or.inr rfl
  · intro hns
    match t with
    | .str s => simp [JSVal.isStr] at hns
    | .undef => rfl
    | .jsnull => rfl
    | .bool _ => rfl
    | .num _ => rfl
    | .obj _ => rfl
    | .arr _ => rfl
    | .fn _ => rfl
  · intro s hts hne
    subst hts
    simp [h, hne]
  · intro hna
    match c with
    | .arr _ => simp [JSVal.isArr] at hna
    | .undef => rfl
    | .jsnull => rfl
    | .bool _ => rfl
    | .num _ => rfl
    | .str _ => rfl
    | .obj _ => rfl
    | .fn _ => rfl

/-- Witness for C9: a numeric tag takes the fallback path, and a valid tag
with a bare string child wraps the child into a one-element array. -/
theorem h_total_with_fallback_witness :
    h (.num 3) (.obj []) (.str "x") .jsnull = fallbackVNode ∧
    h (.str "span") (.obj []) (.str "x") .jsnull =
      { tag := "span", props := .obj [], children := [.str "x"],
        key := .jsnull, flags := 0 } := by
  constructor
  · exact (h_total_with_fallback (.num 3) (.obj []) (.str "x") .jsnull).2.1 rfl
  · exact (h_total_with_fallback (.str "span") (.obj []) (.str "x") .jsnull).2.2.1
      "span" rfl (by decide)


/-! ## Reactive state container (`LiteZ.state`, litez1.js:231-285 /
litez.js:260-303)

`state(initial)` closes over a listener Set, a watcher Map and the root
proxy.  The embedding makes that closure state explicit as a `Store`
record; the notifications that the proxy's `set` trap performs
synchronously are returned as an ordered event list, so "fires before
`set` returns" is modelled by the events being part of the operation's
result.  Deep wrapping (`deepProxy`) is modelled separately in the heap
section below; it does not affect which notifications fire. -/

/-- A notification performed inside the proxy `set` trap:
`listeners.forEach((cb) => cb(proxy))` and
`watchers.forEach((cb, watchedKey) => { if (watchedKey === key ||
watchedKey === "*") cb(value, oldValue) })`.  Callbacks are identified by
number. -/
inductive StoreEvent where
  | onChange (listener : Nat)
  | watcherFire (cb : Nat) (newVal oldVal : JSVal)

/-- The closure state of one `state(initial)` container.  `root` is the
identity of the root proxy created once by `deepProxy(initial)`;
`listeners` keeps Set insertion order, `watchers` keeps Map insertion
order with one callback slot per key. -/
structure Store where
  data : List (String × JSVal)
  listeners : List Nat
  watchers : List (String × Nat)
  root : Nat

/-- `target[key] = v` on a plain object: overwrite in place, else append
(JS own-property insertion order). -/
def setField : List (String × JSVal) → String → JSVal → List (String × JSVal)
  | [], k, v => [(k, v)]
  | (k0, v0) :: rest, k, v =>
      if k0 = k then (k, v) :: rest else (k0, v0) :: setField rest k v

/-- `Map.prototype.set`: overwrite the slot in its original position, else
append. -/
def mapSet : List (String × Nat) → String → Nat → List (String × Nat)
  | [], k, cb => [(k, cb)]
  | (k0, c0) :: rest, k, cb =>
      if k0 = k then (k, cb) :: rest else (k0, c0) :: mapSet rest k cb

/-- `Set.prototype.add`. -/
def setAdd (l : List Nat) (n : Nat) : List Nat :=
  if n ∈ l then l else l ++ [n]

namespace Store

/-- One invocation of the proxy's `set` trap (litez1.js:242-250): read the
old value, store the new one, then notify every `onChange` listener and
every watcher whose key matches the written key or `"*"` — with no
comparison of old and new value anywhere. -/
def setTrap (s : Store) (key : String) (value : JSVal) : Store × List StoreEvent :=
  let oldValue := (s.data.lookup key).getD .undef
  let data' := setField s.data key value
  let changeEvents := s.listeners.map StoreEvent.onChange
  let watchEvents := s.watchers.filterMap fun w =>
    if w.1 = key ∨ w.1 = "*" then some (.watcherFire w.2 value oldValue)
    else none
  ({ s with data := data' }, changeEvents ++ watchEvents)

/-- `Object.assign(proxy, deepProxy(key))`: one `set`-trap invocation per
own enumerable key of the source object, in key order. -/
def setMergeLoop (s : Store) : List (String × JSVal) → Store × List StoreEvent
  | [] => (s, [])
  | kv :: rest =>
      let r := s.setTrap kv.1 kv.2
      let r2 := setMergeLoop r.1 rest
      (r2.1, r.2 ++ r2.2)

/-- JavaScript property-key coercion for the non-object branch
`proxy[key] = deepProxy(value)`. -/
def toPropKey : JSVal → String
  | .str s => s
  | .num n => toString n
  | .bool b => toString b
  | .undef => "undefined"
  | .jsnull => "null"
  | .obj _ => "object"
  | .arr _ => "array"
  | .fn _ => "function"

/-- The container's `set` (litez1.js:267-275): an object argument merges
via `Object.assign` (note `typeof null === "object"`, and
`Object.assign(proxy, null)` writes nothing); any other first argument is
a single keyed write.  Array sources copy their index properties. -/
def set (s : Store) (key value : JSVal) : Store × List StoreEvent :=
  match key with
  | .jsnull => (s, [])
  | .obj kvs => setMergeLoop s kvs
  | .arr elems =>
      setMergeLoop s (elems.enum.map fun p => (toString p.1, p.2))
  | k => setTrap s (toPropKey k) value

/-- `onChange(listener)`: add to the listener Set. -/
def onChange (s : Store) (listener : Nat) : Store :=
  { s with listeners := setAdd s.listeners listener }

/-- `watch(key, callback)`: `watchers.set(key, callback)` — a Map write,
so one slot per key. -/
def watch (s : Store) (key : String) (cb : Nat) : Store :=
  { s with watchers := mapSet s.watchers key cb }

/-- `get: () => proxy` — the container hands out the root wrapper created
once at construction. -/
def get (s : Store) : Nat := s.root

end Store

/-- Occurrences of `onChange l` in an event list. -/
def countOnChange (evs : List StoreEvent) (l : Nat) : Nat :=
  evs.countP fun e => match e with
    | .onChange l2 => l2 == l
    | _ => false

theorem countOnChange_append (a b : List StoreEvent) (l : Nat) :
    countOnChange (a ++ b) l = countOnChange a l + countOnChange b l :=
  List.countP_append _ _ _

theorem countOnChange_watchEvents (ws : List (String × Nat)) (key : String)
    (value oldValue : JSVal) (l : Nat) :
    countOnChange
      (ws.filterMap fun w =>
        if w.1 = key ∨ w.1 = "*" then
          some (StoreEvent.watcherFire w.2 value oldValue)
        else none) l = 0 := by
  apply List.countP_eq_zero.mpr
  intro e he
  obtain ⟨w, _, hfw⟩ := List.mem_filterMap.mp he
  by_cases hc : w.1 = key ∨ w.1 = "*"
  · rw [if_pos hc] at hfw
    cases hfw
    simp
  · rw [if_neg hc] at hfw
    cases hfw

theorem countOnChange_listeners (ls : List Nat) (l : Nat) :
    countOnChange (ls.map StoreEvent.onChange) l = ls.count l := by
  induction ls with
  | nil => rfl
  | cons x rest ih =>
      by_cases hx : x = l
      · subst hx
        simp only [countOnChange, List.map_cons, List.countP_cons] at ih ⊢
        simp [List.count_cons, ih]
      · simp only [countOnChange, List.map_cons, List.countP_cons] at ih ⊢
        simp [List.count_cons, hx, Ne.symm hx, ih]

theorem setTrap_onChange_count (s : Store) (k : String) (v : JSVal) (l : Nat)
    (hm : l ∈ s.listeners) (hnd : s.listeners.Nodup) :
    countOnChange (s.setTrap k v).2 l = 1 := by
  have h1 : countOnChange (s.listeners.map StoreEvent.onChange) l = 1 := by
    rw [countOnChange_listeners]
    exact List.count_eq_one_of_mem hnd hm
  simp only [Store.setTrap]
  rw [countOnChange_append, h1, countOnChange_watchEvents]

theorem setTrap_preserves_listeners (s : Store) (k : String) (v : JSVal) :
    (s.setTrap k v).1.listeners = s.listeners := rfl

theorem setMergeLoop_onChange_count (s : Store) (kvs : List (String × JSVal))
    (l : Nat) (hm : l ∈ s.listeners) (hnd : s.listeners.Nodup) :
    countOnChange (s.setMergeLoop kvs).2 l = kvs.length := by
  induction kvs generalizing s with
  | nil => simp [Store.setMergeLoop, countOnChange]
  | cons kv rest ih =>
      have hcount : countOnChange (s.setTrap kv.1 kv.2).2 l = 1 :=
        setTrap_onChange_count s kv.1 kv.2 l hm hnd
      have hm2 : l ∈ (s.setTrap kv.1 kv.2).1.listeners := by
        rw [setTrap_preserves_listeners]; exact hm
      have hnd2 : (s.setTrap kv.1 kv.2).1.listeners.Nodup := by
        rw [setTrap_preserves_listeners]; exact hnd
      simp only [Store.setMergeLoop]
      rw [countOnChange_append, hcount, ih _ hm2 hnd2]
      simp [Nat.add_comm]

/-- **C1**: every `set` call notifies each registered `onChange` listener
exactly once per written key, unconditionally — the events are produced
inside the `set` trap itself, before `set` returns, and no branch compares
the new value with the stored one.  The single-key form emits exactly one
`onChange` event per listener for every value `v`, including the value
already stored at `k`; the merge form emits exactly one per listener per
written key. -/
theorem set_always_notifies_each_listener_once (s : Store) (k : String)
    (v : JSVal) (kvs : List (String × JSVal)) (l : Nat)
    (hm : l ∈ s.listeners) (hnd : s.listeners.Nodup) :
    countOnChange (s.set (.str k) v).2 l = 1 ∧
    countOnChange (s.set (.str k) ((s.data.lookup k).getD .undef)).2 l = 1 ∧
    countOnChange (s.set (.obj kvs) .undef).2 l = kvs.length := by
  refine ⟨?_, ?_, ?_⟩
  · exact setTrap_onChange_count s k v l hm hnd
  · exact setTrap_onChange_count s k _ l hm hnd
  · exact setMergeLoop_onChange_count s kvs l hm hnd

/-- Witness for C1: a container with two listeners; writing the very value
already stored at `"a"` still fires listener `1` exactly once, and a
two-key merge fires it exactly twice. -/
theorem set_always_notifies_witness :
    countOnChange
      ((Store.mk [("a", .num 1)] [0, 1] [] 0).set (.str "a") (.num 1)).2 1 = 1 ∧
    countOnChange
      ((Store.mk [("a", .num 1)] [0, 1] [] 0).set
        (.obj [("a", .num 1), ("b", .num 2)]) .undef).2 1 = 2 := by
  refine ⟨?_, ?_⟩
  · exact (set_always_notifies_each_listener_once
      (Store.mk [("a", .num 1)] [0, 1] [] 0) "a" (.num 1) [] 1
      (by decide) (by decide)).1
  · exact (set_always_notifies_each_listener_once
      (Store.mk [("a", .num 1)] [0, 1] [] 0) "a" (.num 1)
      [("a", .num 1), ("b", .num 2)] 1 (by decide) (by decide)).2.2

theorem mapSet_mapSet (ws : List (String × Nat)) (k : String) (cb1 cb2 : Nat) :
    mapSet (mapSet ws k cb1) k cb2 = mapSet ws k cb2 := by
  induction ws with
  | nil => simp [mapSet]
  | cons w rest ih =>
      obtain ⟨k0, c0⟩ := w
      by_cases hk : k0 = k
      · simp [mapSet, hk]
      · simp [mapSet, hk, ih]

theorem mapSet_self_mem (ws : List (String × Nat)) (k : String) (cb : Nat) :
    (k, cb) ∈ mapSet ws k cb := by
  induction ws with
  | nil => simp [mapSet]
  | cons w rest ih =>
      obtain ⟨k0, c0⟩ := w
      by_cases hk : k0 = k
      · simp [mapSet, hk]
      · simp only [mapSet, if_neg hk, List.mem_cons]
        exact Or.inr ih

theorem mapSet_lookup (ws : List (String × Nat)) (k : String) (cb : Nat) :
    (mapSet ws k cb).lookup k = some cb := by
  induction ws with
  | nil => simp [mapSet, List.lookup]
  | cons w rest ih =>
      obtain ⟨k0, c0⟩ := w
      by_cases hk : k0 = k
      · simp [mapSet, hk, List.lookup]
      · simp only [mapSet, if_neg hk, List.lookup]
        have hbeq : (k == k0) = false := by
          simpa using Ne.symm hk
        rw [hbeq]
        exact ih

theorem mapSet_mem (ws : List (String × Nat)) (k : String) (cb : Nat) :
    ∀ e ∈ mapSet ws k cb, e = (k, cb) ∨ e ∈ ws := by
  induction ws with
  | nil => simp [mapSet]
  | cons w rest ih =>
      obtain ⟨k0, c0⟩ := w
      by_cases hk : k0 = k
      · intro e he
        simp only [mapSet, if_pos hk, List.mem_cons] at he
        rcases he with he | he
        · exact Or.inl he
        · exact Or.inr (List.mem_cons_of_mem _ he)
      · intro e he
        simp only [mapSet, if_neg hk, List.mem_cons] at he
        rcases he with he | he
        · exact Or.inr (by simp [he])
        · rcases ih e he with h1 | h1
          · exact Or.inl h1
          · exact Or.inr (List.mem_cons_of_mem _ h1)

/-- **C4**: `watch` stores its callback with `watchers.set(key, callback)`,
so a second registration on the same key replaces the first.  After
`watch(k, cb1); watch(k, cb2)` the watcher map is exactly as if only `cb2`
had been registered, the slot for `k` holds `cb2`, a write to `k` fires
`cb2`, and `cb1` never fires (provided `cb1` differs from `cb2` and was
not separately registered under another key). -/
theorem watch_second_registration_replaces_first (s : Store) (k : String)
    (cb1 cb2 : Nat) (v : JSVal) (hne : cb1 ≠ cb2)
    (hfresh : ∀ e ∈ s.watchers, e.2 ≠ cb1) :
    ((s.watch k cb1).watch k cb2).watchers = (s.watch k cb2).watchers ∧
    ((s.watch k cb1).watch k cb2).watchers.lookup k = some cb2 ∧
    (∃ o, StoreEvent.watcherFire cb2 v o ∈
        (((s.watch k cb1).watch k cb2).setTrap k v).2) ∧
    (∀ n o, StoreEvent.watcherFire cb1 n o ∉
        (((s.watch k cb1).watch k cb2).setTrap k v).2) := by
  have hws : ((s.watch k cb1).watch k cb2).watchers = mapSet s.watchers k cb2 := by
    simp [Store.watch, mapSet_mapSet]
  refine ⟨?_, ?_, ?_, ?_⟩
  · simp [Store.watch, mapSet_mapSet]
  · rw [hws]; exact mapSet_lookup _ _ _
  · refine ⟨(((s.watch k cb1).watch k cb2).data.lookup k).getD .undef, ?_⟩
    simp only [Store.setTrap, List.mem_append]
    right
    rw [hws]
    apply List.mem_filterMap.mpr
    exact ⟨(k, cb2), mapSet_self_mem _ _ _, by simp⟩
  · intro n o hmem
    simp only [Store.setTrap, List.mem_append] at hmem
    rcases hmem with hmem | hmem
    · obtain ⟨x, _, hx⟩ := List.mem_map.mp hmem
      exact StoreEvent.noConfusion hx
    · obtain ⟨w, hw, hfw⟩ := List.mem_filterMap.mp hmem
      by_cases hcond : w.1 = k ∨ w.1 = "*"
      · rw [if_pos hcond] at hfw
        have hwcb : w.2 = cb1 := by
          cases hfw
          rfl
        rw [hws] at hw
        rcases mapSet_mem s.watchers k cb2 w hw with h1 | h1
        · rw [h1] at hwcb; exact hne hwcb.symm
        · exact hfresh w h1 hwcb
      · rw [if_neg hcond] at hfw
        cases hfw

/-- Witness for C4: on a fresh container, registering `10` then `20` on
key `"a"` and writing `"a"` leaves only `20` in the slot; callback `10`
does not fire. -/
theorem watch_second_registration_replaces_first_witness :
    (((Store.mk [] [] [] 0).watch "a" 10).watch "a" 20).watchers.lookup "a"
      = some 20 ∧
    (∀ n o, StoreEvent.watcherFire 10 n o ∉
        ((((Store.mk [] [] [] 0).watch "a" 10).watch "a" 20).setTrap "a"
          (.num 5)).2) := by
  have hmain := watch_second_registration_replaces_first
    (Store.mk [] [] [] 0) "a" 10 20 (.num 5)
    (by decide) (by intro e he; simp at he)
  exact ⟨hmain.2.1, hmain.2.2.2⟩

/-! ## Root wrapper stability (C10) -/

/-- A client-visible operation on one state container. -/
inductive StoreOp where
  | doSet (key value : JSVal)
  | doOnChange (listener : Nat)
  | doWatch (key : String) (cb : Nat)

def applyOp (s : Store) : StoreOp → Store
  | .doSet key value => (s.set key value).1
  | .doOnChange l => s.onChange l
  | .doWatch k cb => s.watch k cb

def applyOps (s : Store) (ops : List StoreOp) : Store :=
  ops.foldl applyOp s

theorem setTrap_preserves_root (s : Store) (k : String) (v : JSVal) :
    (s.setTrap k v).1.root = s.root := rfl

theorem setMergeLoop_preserves_root (s : Store) (kvs : List (String × JSVal)) :
    (s.setMergeLoop kvs).1.root = s.root := by
  induction kvs generalizing s with
  | nil => rfl
  | cons kv rest ih =>
      simp only [Store.setMergeLoop]
      rw [ih]
      exact setTrap_preserves_root s kv.1 kv.2

theorem applyOp_preserves_root (s : Store) (op : StoreOp) :
    (applyOp s op).root = s.root := by
  match op with
  | .doSet key value =>
      simp only [applyOp, Store.set]
      match key with
      | .jsnull => rfl
      | .obj kvs => exact setMergeLoop_preserves_root s kvs
      | .arr elems => exact setMergeLoop_preserves_root s _
      | .undef => rfl
      | .bool _ => rfl
      | .num _ => rfl
      | .str _ => rfl
      | .fn _ => rfl
  | .doOnChange l => rfl
  | .doWatch k cb => rfl

/-- **C10**: the root wrapper identity is stable.  `get()` returns the
`root` reference fixed when the container was built, and no sequence of
`set` (keyed or merge), `onChange` or `watch` operations ever changes it:
mutation happens in the `data` field behind the same root reference. -/
theorem get_returns_stable_root (s : Store) (ops : List StoreOp) :
    (applyOps s ops).get = s.get := by
  induction ops generalizing s with
  | nil => rfl
  | cons op rest ih =>
      show (applyOps (applyOp s op) rest).get = s.get
      rw [ih (applyOp s op)]
      exact applyOp_preserves_root s op

/-! ## Deep wrapper identity cache (`deepProxy`, litez1.js:236-262 /
litez.js:265-285; claim C6)

`deepProxy` is lazy: a single call never recurses into fields.  The deep
behaviour arises from the proxy `get` trap
(`get(target, key) { return deepProxy(target[key]); }`), so cycles are met
by repeatedly wrapping field values along an access path.  The embedding
makes object identity explicit: a heap maps addresses to objects, the
`seen` WeakMap becomes an address-to-address cache, and a wrapper is a
fresh address drawn from a counter.  The heap of source objects is fixed
during get walks (the trap never mutates fields). -/

/-- A field value: a primitive (including `null`), or a reference to a
heap object. -/
inductive HVal where
  | prim : HVal
  | addr : Nat → HVal

/-- A source object on the heap: its fields, the `__litez_raw__` marker
and `Object.isExtensible`. -/
structure HeapObj where
  fields : List (String × HVal)
  raw : Bool
  extensible : Bool

/-- The mutable wrapping context closed over by one `state()` container:
the `seen` cache (source address to wrapper address, insertion ordered)
and the allocator for fresh wrapper identities. -/
structure WrapCtx where
  cache : List (Nat × Nat)
  nextAddr : Nat

theorem lookup_append_of_none {β : Type} (l1 l2 : List (Nat × β)) (a : Nat)
    (hn : l1.lookup a = none) : (l1 ++ l2).lookup a = l2.lookup a := by
  induction l1 with
  | nil => rfl
  | cons e rest ih =>
      obtain ⟨k, v⟩ := e
      by_cases hk : a = k
      · subst hk
        simp [List.lookup] at hn
      · simp only [List.lookup, List.cons_append,
          beq_eq_false_iff_ne.mpr hk] at hn ⊢
        exact ih hn

theorem lookup_mem_keys {β : Type} (l : List (Nat × β)) (a : Nat) (o : β)
    (hl : l.lookup a = some o) : a ∈ l.map Prod.fst := by
  induction l with
  | nil => simp [List.lookup] at hl
  | cons e rest ih =>
      obtain ⟨k, v⟩ := e
      by_cases hk : a = k
      · simp [hk]
      · simp only [List.lookup, beq_eq_false_iff_ne.mpr hk] at hl
        simpa using Or.inr (ih hl)

theorem lookup_none_not_mem {β : Type} (l : List (Nat × β)) (a : Nat)
    (hl : l.lookup a = none) : a ∉ l.map Prod.fst := by
  induction l with
  | nil => simp
  | cons e rest ih =>
      obtain ⟨k, v⟩ := e
      by_cases hk : a = k
      · subst hk
        simp [List.lookup] at hl
      · simp only [List.lookup, beq_eq_false_iff_ne.mpr hk] at hl
        simp only [List.map_cons, List.mem_cons]
        push_neg
        exact ⟨hk, ih hl⟩

/-- `deepProxy(obj)` (one call, which in the source never recurses):
primitives, raw-marked and non-extensible objects are returned unwrapped;
a cached source returns its existing wrapper; otherwise a fresh wrapper
identity is allocated and recorded in `seen`.  (An address absent from the
heap cannot arise from a closed object graph and is returned unchanged.) -/
def deepProxy (heap : List (Nat × HeapObj)) (st : WrapCtx) (v : HVal) :
    HVal × WrapCtx :=
  match v with
  | .prim => (v, st)
  | .addr a =>
      match heap.lookup a with
      | none => (v, st)
      | some o =>
          if o.raw || !o.extensible then (v, st)
          else
            match st.cache.lookup a with
            | some p => (.addr p, st)
            | none =>
                (.addr st.nextAddr,
                  { cache := st.cache ++ [(a, st.nextAddr)],
                    nextAddr := st.nextAddr + 1 })

/-- Reverse cache lookup: which source (if any) does wrapper address `p`
wrap?  This models dispatching a property read on a proxy to its target. -/
def findSource (cache : List (Nat × Nat)) (p : Nat) : Option Nat :=
  (cache.find? fun e => e.2 == p).map Prod.fst

/-- One property read along a get walk.  On a wrapper, the proxy `get`
trap reads the raw field of the target and wraps it with `deepProxy`; on
an unwrapped object (raw or non-extensible), it is a plain read; on a
primitive the result is treated as a primitive. -/
def getStep (heap : List (Nat × HeapObj)) (st : WrapCtx) (v : HVal)
    (key : String) : HVal × WrapCtx :=
  match v with
  | .prim => (.prim, st)
  | .addr x =>
      match findSource st.cache x with
      | some a =>
          match heap.lookup a with
          | none => (.prim, st)
          | some target =>
              deepProxy heap st ((target.fields.lookup key).getD .prim)
      | none =>
          match heap.lookup x with
          | none => (.prim, st)
          | some o => ((o.fields.lookup key).getD .prim, st)

/-- A whole access path `v.k1.k2...` through wrapped state. -/
def getPath (heap : List (Nat × HeapObj)) (st : WrapCtx) (v : HVal) :
    List String → HVal × WrapCtx
  | [] => (v, st)
  | k :: rest =>
      let r := getStep heap st v k
      getPath heap r.2 r.1 rest

/-- Well-formedness of the wrapping context over a fixed source heap:
heap addresses lie below the allocator, cached sources are distinct heap
addresses, and wrapper identities never collide with source addresses. -/
def WInv (heap : List (Nat × HeapObj)) (st : WrapCtx) : Prop :=
  (∀ e ∈ heap, e.1 < st.nextAddr) ∧
  (st.cache.map Prod.fst).Nodup ∧
  (∀ e ∈ st.cache, (heap.lookup e.1).isSome) ∧
  (∀ e ∈ st.cache, ∀ hE ∈ heap, hE.1 ≠ e.2)

theorem deepProxy_WInv (heap : List (Nat × HeapObj)) (st : WrapCtx)
    (v : HVal) (hinv : WInv heap st) : WInv heap (deepProxy heap st v).2 := by
  obtain ⟨hfresh, hnd, hkeys, hvals⟩ := hinv
  cases v with
  | prim => exact ⟨hfresh, hnd, hkeys, hvals⟩
  | addr a =>
      cases hheap : heap.lookup a with
      | none => simpa [deepProxy, hheap] using ⟨hfresh, hnd, hkeys, hvals⟩
      | some o =>
          cases hskip : (o.raw || !o.extensible) with
          | true =>
              simpa [deepProxy, hheap, hskip] using ⟨hfresh, hnd, hkeys, hvals⟩
          | false =>
              cases hc : st.cache.lookup a with
              | some p =>
                  simpa [deepProxy, hheap, hskip, hc] using
                    ⟨hfresh, hnd, hkeys, hvals⟩
              | none =>
                  have hgoal : WInv heap
                      { cache := st.cache ++ [(a, st.nextAddr)],
                        nextAddr := st.nextAddr + 1 } := by
                    refine ⟨?_, ?_, ?_, ?_⟩
                    · intro e he
                      exact Nat.lt_succ_of_lt (hfresh e he)
                    · rw [List.map_append, List.nodup_append]
                      refine ⟨hnd, List.nodup_singleton _, ?_⟩
                      intro x hx hx2
                      simp only [List.map_cons, List.map_nil,
                        List.mem_singleton] at hx2
                      subst hx2
                      exact lookup_none_not_mem _ _ hc hx
                    · intro e he
                      rcases List.mem_append.mp he with h1 | h1
                      · exact hkeys e h1
                      · rw [List.mem_singleton] at h1
                        subst h1
                        simp [hheap]
                    · intro e he hE hhE
                      rcases List.mem_append.mp he with h1 | h1
                      · exact hvals e h1 hE hhE
                      · rw [List.mem_singleton] at h1
                        subst h1
                        exact Nat.ne_of_lt (hfresh hE hhE)
                  simpa [deepProxy, hheap, hskip, hc] using hgoal

theorem getStep_WInv (heap : List (Nat × HeapObj)) (st : WrapCtx)
    (v : HVal) (key : String) (hinv : WInv heap st) :
    WInv heap (getStep heap st v key).2 := by
  cases v with
  | prim => exact hinv
  | addr x =>
      cases hfs : findSource st.cache x with
      | some a =>
          cases hh : heap.lookup a with
          | none => simpa [getStep, hfs, hh] using hinv
          | some target =>
              simpa [getStep, hfs, hh] using
                deepProxy_WInv heap st
                  ((target.fields.lookup key).getD .prim) hinv
      | none =>
          cases hh : heap.lookup x with
          | none => simpa [getStep, hfs, hh] using hinv
          | some o => simpa [getStep, hfs, hh] using hinv

theorem getPath_WInv (heap : List (Nat × HeapObj)) (path : List String) :
    ∀ (st : WrapCtx) (v : HVal), WInv heap st →
    WInv heap (getPath heap st v path).2 := by
  induction path with
  | nil => intro st v hinv; exact hinv
  | cons k rest ih =>
      intro st v hinv
      exact ih _ _ (getStep_WInv heap st v k hinv)

theorem WInv_cache_length (heap : List (Nat × HeapObj)) (st : WrapCtx)
    (hinv : WInv heap st) : st.cache.length ≤ heap.length := by
  obtain ⟨-, hnd, hkeys, -⟩ := hinv
  have hsub : st.cache.map Prod.fst ⊆ heap.map Prod.fst := by
    intro a ha
    obtain ⟨e, he, hfst⟩ := List.mem_map.mp ha
    obtain ⟨o, ho⟩ := Option.isSome_iff_exists.mp (hkeys e he)
    exact hfst ▸ lookup_mem_keys heap e.1 o ho
  have h1 : (st.cache.map Prod.fst).length ≤ (heap.map Prod.fst).length :=
    calc (st.cache.map Prod.fst).length
        = (st.cache.map Prod.fst).toFinset.card :=
          (List.toFinset_card_of_nodup hnd).symm
      _ ≤ (heap.map Prod.fst).toFinset.card :=
          Finset.card_le_card
            (fun a ha => List.mem_toFinset.mpr (hsub (List.mem_toFinset.mp ha)))
      _ ≤ (heap.map Prod.fst).length := List.toFinset_card_le _
  simpa using h1

/-- **C6**: the wrapper cache is identity-keyed and guarantees one wrapper
per source object: wrapping the same value twice (threading the cache)
returns the same wrapper and leaves the cache untouched on the second
call.  And along any property-access path through the wrapped graph — in
particular arbitrarily long paths around a cyclic graph — the cache never
exceeds one entry per heap object, so wrapper creation terminates: every
revisit of an already-wrapped object is served from the cache. -/
theorem deepProxy_identity_cache_and_bounded (heap : List (Nat × HeapObj))
    (st : WrapCtx) (v : HVal) (path : List String) (hinv : WInv heap st) :
    deepProxy heap (deepProxy heap st v).2 v = deepProxy heap st v ∧
    (getPath heap st v path).2.cache.length ≤ heap.length := by
  constructor
  · cases v with
    | prim => rfl
    | addr a =>
        cases hheap : heap.lookup a with
        | none => simp [deepProxy, hheap]
        | some o =>
            cases hskip : (o.raw || !o.extensible) with
            | true => simp [deepProxy, hheap, hskip]
            | false =>
                cases hc : st.cache.lookup a with
                | some p => simp [deepProxy, hheap, hskip, hc]
                | none =>
                    have hafter :
                        (st.cache ++ [(a, st.nextAddr)]).lookup a
                          = some st.nextAddr := by
                      rw [lookup_append_of_none _ _ _ hc]
                      simp [List.lookup]
                    simp [deepProxy, hheap, hskip, hc, hafter]
  · exact WInv_cache_length heap _ (getPath_WInv heap path st v hinv)

/-- Witness for C6: a two-object cyclic heap (`0.self = 1`, `1.self = 0`).
Walking `self` five times from the freshly wrapped root creates exactly
one wrapper per source object: the cache ends within the bound of two
entries. -/
theorem deepProxy_identity_cache_and_bounded_witness :
    (getPath
        [(0, ⟨[("self", .addr 1)], false, true⟩),
         (1, ⟨[("self", .addr 0)], false, true⟩)]
        (deepProxy
          [(0, ⟨[("self", .addr 1)], false, true⟩),
           (1, ⟨[("self", .addr 0)], false, true⟩)]
          ⟨[], 2⟩ (.addr 0)).2
        (deepProxy
          [(0, ⟨[("self", .addr 1)], false, true⟩),
           (1, ⟨[("self", .addr 0)], false, true⟩)]
          ⟨[], 2⟩ (.addr 0)).1
        ["self", "self", "self", "self", "self"]).2.cache.length ≤ 2 := by
  have hmain := deepProxy_identity_cache_and_bounded
    [(0, ⟨[("self", .addr 1)], false, true⟩),
     (1, ⟨[("self", .addr 0)], false, true⟩)]
    (deepProxy
      [(0, ⟨[("self", .addr 1)], false, true⟩),
       (1, ⟨[("self", .addr 0)], false, true⟩)]
      ⟨[], 2⟩ (.addr 0)).2
    (deepProxy
      [(0, ⟨[("self", .addr 1)], false, true⟩),
       (1, ⟨[("self", .addr 0)], false, true⟩)]
      ⟨[], 2⟩ (.addr 0)).1
    ["self", "self", "self", "self", "self"]
    (by refine ⟨by decide, by decide, by decide, by decide⟩)
  exact hmain.2

/-! ## Reconciler (`LiteZ.update`, litez1.js:923-1036) and renderer
(`LiteZ.render`, litez1.js:780-851)

VNodes are either bare strings or `h`-built tag records; the claims only
need literal string props, so prop values are strings and `@`-prefixed
keys stand for event handlers.  The DOM is the parent's `childNodes` list;
node identity is an allocated number.  Every destructive step is recorded
in an event log, giving the observables of mount (a fresh render attached),
teardown (detach of an existing node), replacement, relocation, and text
patching.  In the modelled scenarios no `_component` is attached, so the
`comp?.on...` lifecycle hook calls of the source are all no-ops; the
detach/mount events are exactly the operations those hooks accompany.

The source's child walk reads and mutates `parent.childNodes` — the first
argument of `update` — including inside the recursive keyed call
`this.update(parent, newChild, matchedOldChild, j)`; the embedding keeps
that behaviour. -/

/-- Patch-flag bit masks (litez1.js:40-47). -/
def FLAG_TEXT : Nat := 1
def FLAG_CLASS : Nat := 2
def FLAG_STYLE : Nat := 4
def FLAG_PROPS : Nat := 8
def FLAG_FULL_PROPS : Nat := 16

def hasFlag (f m : Nat) : Bool := f.land m != 0

/-- `String.prototype.startsWith`, computably over character lists. -/
def hasPrefixStr (pre s : String) : Bool := pre.data.isPrefixOf s.data

/-- A virtual child as the reconciler sees it: a bare string or a tag
VNode with literal props, children, an optional key (`none` is the `null`
default of `h`) and patch flags. -/
inductive VNode where
  | text (s : String)
  | elem (tag : String) (props : List (String × String)) (children : List VNode)
      (key : Option String) (flags : Nat)

/-- A real DOM node with its identity. -/
inductive DNode where
  | dtext (id : Nat) (content : String)
  | delem (id : Nat) (tag : String) (attrs : List (String × String))
      (children : List DNode)

def DNode.nid : DNode → Nat
  | .dtext i _ => i
  | .delem i _ _ _ => i

/-- Observable DOM mutations performed by `render` / `update`. -/
inductive DomEvent where
  | removedNode (id : Nat)
  | mountedNode (id : Nat)
  | replacedNode (oldId newId : Nat)
  | movedNode (id : Nat)
  | textPatched (id : Nat) (s : String)
  | attrSet (id : Nat) (k v : String)
  | attrRemoved (id : Nat) (k : String)

/-- The state threaded through one `update` pass: the parent's
`childNodes`, the allocator for fresh DOM identities, the mutation log,
and whether an exception reached `update`'s `catch`. -/
structure UpdCtx where
  dom : List DNode
  nextId : Nat
  log : List DomEvent
  err : Bool

/-- JavaScript truthiness of `newChildren[i]` / `oldChildren[j]`: absent
slots and empty strings are falsy; tag VNodes are objects, hence truthy. -/
def truthyOptChild : Option VNode → Bool
  | none => false
  | some (.text s) => s != ""
  | some (.elem _ _ _ _ _) => true

/-- `node?.tag` truthiness: only a tag VNode with a nonempty tag passes
the `!newNode?.tag` guard. -/
def tagTruthy : Option VNode → Option String
  | some (.elem t _ _ _ _) => if t = "" then none else some t
  | _ => none

def elemKey : VNode → Option String
  | .text _ => none
  | .elem _ _ _ k _ => k

/-- `newChild.key` truthiness (`null`, missing, and `""` are falsy). -/
def keyTruthy : Option String → Bool
  | none => false
  | some s => s != ""

mutual

/-- `LiteZ.render(node, container)` restricted to the shapes the claims
exercise: a string becomes a fresh text node; a tag VNode becomes a fresh
element whose non-`@` props are applied (listeners go to the element's
listener records, not to attributes) and whose children are rendered in
order into it.  Identities are drawn from the allocator in creation
order. -/
def renderNode : VNode → Nat → DNode × Nat
  | .text s, n => (.dtext n s, n + 1)
  | .elem tag props children _key _flags, n =>
      let attrs := props.filterMap fun p =>
        if hasPrefixStr "@" p.1 then none else some p
      let r := renderList children (n + 1)
      (.delem n tag attrs r.1, r.2)

/-- Children of one element, rendered left to right. -/
def renderList : List VNode → Nat → List DNode × Nat
  | [], n => ([], n)
  | c :: rest, n =>
      let r1 := renderNode c n
      let r2 := renderList rest r1.2
      (r1.1 :: r2.1, r2.2)

end

/-- `parent.removeChild` by node identity. -/
def removeById (dom : List DNode) (i : Nat) : List DNode :=
  dom.filter fun d => d.nid != i

/-- `parent.replaceChild(x, nodeWithId)` by node identity. -/
def replaceById (dom : List DNode) (i : Nat) (x : DNode) : List DNode :=
  dom.map fun d => if d.nid = i then x else d

/-- Insert `x` directly before the node with identity `r`; `none` models
the `NotFoundError` the DOM throws when the reference is not a child. -/
def insertAtBefore : List DNode → Nat → DNode → Option (List DNode)
  | [], _, _ => none
  | d :: rest, r, x =>
      if d.nid = r then some (x :: d :: rest)
      else match insertAtBefore rest r x with
        | some l => some (d :: l)
        | none => none

/-- `parent.insertBefore(x, ref)`: a `null`/`undefined` reference appends;
inserting a node before itself leaves the list unchanged (the DOM
algorithm advances the reference past the moved node); otherwise the node
is detached and re-inserted before the reference. -/
def insertBeforeOp (dom : List DNode) (x : DNode) (ref : Option Nat) :
    Option (List DNode) :=
  match ref with
  | none => some (removeById dom x.nid ++ [x])
  | some r =>
      if r = x.nid then some dom
      else insertAtBefore (removeById dom x.nid) r x

/-- `setAttribute` on an attribute list. -/
def strSetField : List (String × String) → String → String → List (String × String)
  | [], k, v => [(k, v)]
  | (k0, v0) :: rest, k, v =>
      if k0 = k then (k, v) :: rest else (k0, v0) :: strSetField rest k v

def setAttrById (dom : List DNode) (i : Nat) (k v : String) : List DNode :=
  dom.map fun d => match d with
    | .delem id tag attrs children =>
        if id = i then .delem id tag (strSetField attrs k v) children else d
    | _ => d

def removeAttrById (dom : List DNode) (i : Nat) (k : String) : List DNode :=
  dom.map fun d => match d with
    | .delem id tag attrs children =>
        if id = i then .delem id tag (attrs.filter fun a => a.1 ≠ k) children
        else d
    | _ => d

/-- `child.textContent = s`: a text node changes its content; an element
gets a single implicit text child (whose identity is never observed — it
reuses the parent's number). -/
def setTextById (dom : List DNode) (i : Nat) (s : String) : List DNode :=
  dom.map fun d => match d with
    | .dtext id _ => if id = i then .dtext id s else d
    | .delem id tag attrs children =>
        if id = i then .delem id tag attrs [.dtext id s] else d

/-- The key lookup built from the old children (litez1.js:994-997):
`if (child?.key !== undefined) keyMap.set(child.key, {node, index})`.
Strings have no `key` property and are skipped; every tag VNode is
indexed, including those with the default `null` key (`none`). -/
def kmapSet (km : List (Option String × VNode × Nat)) (k : Option String)
    (v : VNode × Nat) : List (Option String × VNode × Nat) :=
  match km with
  | [] => [(k, v)]
  | e :: rest => if e.1 = k then (k, v) :: rest else e :: kmapSet rest k v

def buildKeyMap (old : List VNode) : List (Option String × VNode × Nat) :=
  old.enum.foldl
    (fun km p =>
      match p.2 with
      | .text _ => km
      | .elem _ _ _ k _ => kmapSet km k (p.2, p.1))
    []

def kmapFind : List (Option String × VNode × Nat) → Option String →
    Option (VNode × Nat)
  | [], _ => none
  | e :: rest, k => if e.1 = k then some e.2 else kmapFind rest k

def kmapErase (km : List (Option String × VNode × Nat)) (k : Option String) :
    List (Option String × VNode × Nat) :=
  km.filter fun e => e.1 ≠ k

/-- `newChild.key && keyMap.has(newChild.key)`. -/
def keyedLookup (nc : VNode) (km : List (Option String × VNode × Nat)) :
    Option (VNode × Nat) :=
  match nc with
  | .text _ => none
  | .elem _ _ _ kN _ => if keyTruthy kN then kmapFind km kN else none

/-- The patch-flag-gated attribute diff (litez1.js:964-990) applied to the
DOM child with identity `cid`.  The `innerHTML` line behind `TEXT` is
unreachable here: html sentinels carry no `tag` and take the full-replace
branch instead. -/
def attrDiff (ctx : UpdCtx) (cid : Nat) (fN fO : Nat)
    (pN pO : List (String × String)) : UpdCtx :=
  if fN ≠ 0 ∨ fO ≠ 0 then
    let ctx1 :=
      if hasFlag fN FLAG_CLASS || hasFlag fO FLAG_CLASS then
        if pN.lookup "class" ≠ pO.lookup "class" then
          { ctx with
            dom := setAttrById ctx.dom cid "class" ((pN.lookup "class").getD ""),
            log := ctx.log ++ [.attrSet cid "class" ((pN.lookup "class").getD "")] }
        else ctx
      else ctx
    if hasFlag fN FLAG_PROPS || hasFlag fN FLAG_FULL_PROPS then
      let ctx2 := pO.foldl
        (fun acc kv =>
          if (pN.lookup kv.1).isNone && !hasPrefixStr "@" kv.1 then
            { acc with dom := removeAttrById acc.dom cid kv.1,
                       log := acc.log ++ [.attrRemoved cid kv.1] }
          else acc)
        ctx1
      pN.foldl
        (fun acc kv =>
          if hasPrefixStr "@" kv.1 then acc
          else if hasPrefixStr "data-" kv.1 then
            { acc with dom := setAttrById acc.dom cid kv.1 kv.2,
                       log := acc.log ++ [.attrSet cid kv.1 kv.2] }
          else if pO.lookup kv.1 ≠ some kv.2 then
            { acc with dom := setAttrById acc.dom cid kv.1 kv.2,
                       log := acc.log ++ [.attrSet cid kv.1 kv.2] }
          else acc)
        ctx2
    else ctx1
  else ctx

/-- The full-replace path: `parent.replaceChild(this.render(newNode,
document.createElement("div")), child)` — a fresh render substituted for
the existing node at its position. -/
def replaceAt (ctx : UpdCtx) (childId : Nat) (nc : VNode) : UpdCtx :=
  let r := renderNode nc ctx.nextId
  { ctx with dom := replaceById ctx.dom childId r.1,
             nextId := r.2,
             log := ctx.log ++ [.replacedNode childId r.1.nid] }

/-- Selector for the two mutually recursive procedures of the reconciler:
the `update` entry itself and its inner dual-cursor child walk. -/
inductive UpdCall where
  | upd (newNode oldNode : Option VNode) (index : Nat)
  | walk (newChildren oldChildren : List VNode)
      (km : List (Option String × VNode × Nat)) (i j : Nat)

/-- `LiteZ.update(parent, newNode, oldNode, index)` (litez1.js:923-1036)
together with its dual-cursor child walk (litez1.js:999-1030), as one
fuel-indexed recursion (the fuel only bounds depth; exhaustion marks an
error and never occurs in the evaluated scenarios).

`upd` branches in source order: a missing DOM child returns; a falsy
`newNode` detaches the child; two strings patch text when different; a
missing or differing tag full-replaces; matching tags run the flag-gated
attribute diff, then the child walk over `parent.childNodes` (`ctx.dom` —
the source reads and mutates the first argument's children even in the
recursive keyed call `this.update(parent, newChild, matchedOldChild, j)`).

`walk`: a falsy new slot detaches the DOM node at `j`; a falsy old slot
appends a fresh render; a truthy key found in the key map relocates
`parent.childNodes[oldIdx]` before the current node when out of place,
recursively patches at `j`, and deletes the key; anything else replaces
the node at `j` with a fresh render. -/
def updRun : Nat → UpdCtx → UpdCall → UpdCtx
  | 0, ctx, _ => { ctx with err := true }
  | fuel + 1, ctx, .upd newNode oldNode index =>
      if ctx.err then ctx
      else
        match ctx.dom.get? index with
        | none => ctx
        | some child =>
            if !truthyOptChild newNode then
              { ctx with dom := removeById ctx.dom child.nid,
                         log := ctx.log ++ [.removedNode child.nid] }
            else
              match newNode, oldNode with
              | some (.text sN), some (.text sO) =>
                  if sN ≠ sO then
                    { ctx with dom := setTextById ctx.dom child.nid (jsTrim sN),
                               log := ctx.log ++
                                 [.textPatched child.nid (jsTrim sN)] }
                  else ctx
              | some nc, _ =>
                  match tagTruthy (some nc), tagTruthy oldNode with
                  | some tN, some tO =>
                      if tN = tO then
                        match nc, oldNode with
                        | .elem _ pN cN _ fN, some (.elem _ pO cO _ fO) =>
                            let ctx1 := attrDiff ctx child.nid fN fO pN pO
                            updRun fuel ctx1 (.walk cN cO (buildKeyMap cO) 0 0)
                        | _, _ => ctx
                      else replaceAt ctx child.nid nc
                  | _, _ => replaceAt ctx child.nid nc
              | none, _ => ctx
  | fuel + 1, ctx, .walk newChildren oldChildren km i j =>
      if ctx.err then ctx
      else if i < newChildren.length ∨ j < oldChildren.length then
        let newChild := newChildren.get? i
        let oldChild := oldChildren.get? j
        let currentChild := ctx.dom.get? j
        if !truthyOptChild newChild then
          match currentChild with
          | none => { ctx with err := true }
          | some cc =>
              let ctx2 := { ctx with dom := removeById ctx.dom cc.nid,
                                     log := ctx.log ++ [.removedNode cc.nid] }
              updRun fuel ctx2 (.walk newChildren oldChildren km i (j + 1))
        else
          match newChild with
          | none => { ctx with err := true }
          | some nc =>
              if !truthyOptChild oldChild then
                let r := renderNode nc ctx.nextId
                let ctx2 := { ctx with dom := ctx.dom ++ [r.1], nextId := r.2,
                                       log := ctx.log ++ [.mountedNode r.1.nid] }
                updRun fuel ctx2 (.walk newChildren oldChildren km (i + 1) j)
              else
                match keyedLookup nc km with
                | some (mOld, oldIdx) =>
                    let ctx2 :=
                      if oldIdx ≠ j then
                        match ctx.dom.get? oldIdx with
                        | none => { ctx with err := true }
                        | some x =>
                            match insertBeforeOp ctx.dom x
                                (currentChild.map DNode.nid) with
                            | none => { ctx with err := true }
                            | some dom2 =>
                                { ctx with dom := dom2,
                                           log := ctx.log ++ [.movedNode x.nid] }
                      else ctx
                    let ctx3 := updRun fuel ctx2 (.upd (some nc) (some mOld) j)
                    updRun fuel ctx3
                      (.walk newChildren oldChildren
                        (kmapErase km (elemKey nc)) (i + 1) (j + 1))
                | none =>
                    let r := renderNode nc ctx.nextId
                    match currentChild with
                    | none => { ctx with nextId := r.2, err := true }
                    | some cc =>
                        let ctx2 :=
                          { ctx with dom := replaceById ctx.dom cc.nid r.1,
                                     nextId := r.2,
                                     log := ctx.log ++
                                       [.replacedNode cc.nid r.1.nid] }
                        updRun fuel ctx2
                          (.walk newChildren oldChildren km (i + 1) (j + 1))
      else ctx

/-- The `update` entry point. -/
def update (fuel : Nat) (ctx : UpdCtx) (newNode oldNode : Option VNode)
    (index : Nat) : UpdCtx :=
  updRun fuel ctx (.upd newNode oldNode index)

/-- The keyed list `[A(1), B(2), C(3)]` as previously rendered. -/
def keyedOld : List VNode :=
  [.elem "li" [] [] (some "1") 0,
   .elem "li" [] [] (some "2") 0,
   .elem "li" [] [] (some "3") 0]

/-- The reordered keyed list `[C(3), A(1), B(2)]` for the next render. -/
def keyedNew : List VNode :=
  [.elem "li" [] [] (some "3") 0,
   .elem "li" [] [] (some "1") 0,
   .elem "li" [] [] (some "2") 0]

/-- The container's children as mounted for `keyedOld`: `A` is node `0`,
`B` is node `1`, `C` is node `2`. -/
def keyedDom : List DNode :=
  [.delem 0 "li" [] [], .delem 1 "li" [] [], .delem 2 "li" [] []]

def isMoveEvent : DomEvent → Bool
  | .movedNode _ => true
  | _ => false

/-- **C2**: reconciling the keyed children `[A(1),B(2),C(3)]` against
`[C(3),A(1),B(2)]` relocates the three existing DOM nodes: the resulting
child order is `C, A, B` with the original identities, the allocator is
untouched (no node is ever created, so nothing mounts), the log holds only
relocation events (nothing is detached or replaced, so no teardown path
runs), and no error is caught. -/
theorem keyed_reorder_relocates_in_place :
    (update 100 ⟨keyedDom, 3, [], false⟩
        (some (.elem "ul" [] keyedNew none 0))
        (some (.elem "ul" [] keyedOld none 0)) 0).dom.map DNode.nid
      = [2, 0, 1] ∧
    (update 100 ⟨keyedDom, 3, [], false⟩
        (some (.elem "ul" [] keyedNew none 0))
        (some (.elem "ul" [] keyedOld none 0)) 0).nextId = 3 ∧
    (update 100 ⟨keyedDom, 3, [], false⟩
        (some (.elem "ul" [] keyedNew none 0))
        (some (.elem "ul" [] keyedOld none 0)) 0).log.all isMoveEvent = true ∧
    (update 100 ⟨keyedDom, 3, [], false⟩
        (some (.elem "ul" [] keyedNew none 0))
        (some (.elem "ul" [] keyedOld none 0)) 0).err = false := by
  refine ⟨?_, ?_, ?_, ?_⟩ <;> rfl

/-- The unkeyed text children `["1","2","3"]` as previously rendered:
text nodes `0`, `1`, `2`. -/
def unkeyedDom : List DNode :=
  [.dtext 0 "1", .dtext 1 "2", .dtext 2 "3"]

def unkeyedOld : List VNode := [.text "1", .text "2", .text "3"]

def unkeyedNew : List VNode := [.text "1", .text "2", .text "3", .text "4"]

def unkeyedResult : UpdCtx :=
  update 100 ⟨unkeyedDom, 3, [], false⟩
    (some (.elem "div" [] unkeyedNew none 0))
    (some (.elem "div" [] unkeyedOld none 0)) 0

/-- **C7, counterexample**: reconciling unkeyed text children
`["1","2","3"]` against `["1","2","3","4"]` does NOT leave indices 0–2
untouched: the node at index 0 is no longer the original node `0` (all
three are replaced), refuting the claim at this concrete input. -/
theorem unkeyed_grow_replaces_counterexample :
    (unkeyedResult.dom.map DNode.nid).take 3 ≠ [0, 1, 2] ∧
    (unkeyedResult.dom.map DNode.nid).take 3 = [3, 4, 5] := by
  refine ⟨by decide, rfl⟩

/-- **C7, amended**: the walk appends exactly one freshly rendered node at
index 3 for `"4"`, but each of the unkeyed string children at indices 0–2
is unconditionally replaced by a freshly rendered text node with the same
text — there is no in-place patch for unkeyed slots (the `newChild.key`
guard fails for strings, so the replace branch runs). -/
theorem unkeyed_grow_one_mount_and_replaces :
    unkeyedResult.dom.map DNode.nid = [3, 4, 5, 6] ∧
    unkeyedResult.log =
      [.replacedNode 0 3, .replacedNode 1 4, .replacedNode 2 5,
       .mountedNode 6] ∧
    unkeyedResult.dom = [.dtext 3 "1", .dtext 4 "2", .dtext 5 "3",
      .dtext 6 "4"] ∧
    unkeyedResult.err = false := by
  refine ⟨rfl, rfl, rfl, rfl⟩


/-! ## Template compiler (`LiteZ.compileTemplate`, litez1.js:366-599)

The host tree (`HNode`) is what `DOMParser` hands to `parseNode`: text
nodes and elements with attribute lists.  `parseNode` classifies
attributes and produces the intermediate tree (`INode`); the accessor
closures it creates are represented symbolically (an `Accessor` records
which expression the closure evaluates and against what normalization),
and they close over the OUTER compile context — evaluation always uses
the `context.state` snapshot passed to `buildVNode`, exactly as the
closures in the source do.

The `staticNodes` identity map is encoded structurally: text entries map a
string to itself (so `staticNodes.get(value) || value` is the value
either way); the fully-static vnode entries are marked by an `inStatic`
flag set exactly under the source's insertion condition (no directives and
all children static text), and `buildVNode` returns such a node verbatim,
as `staticNodes.get(node)` does; the parse-time build of a `z-once` node
is inlined into the node (the `scopeId-tag-length` cache key and its
collision quirk, and a parse-time accessor throw aborting compilation,
are not modelled — no claim touches `z-once`). -/

/-- A node of the parsed template markup. -/
inductive HNode where
  | htext (s : String)
  | helem (tag : String) (attrs : List (String × String)) (children : List HNode)

/-- A symbolic accessor closure produced at parse time.  `ev e` is
`() => unwrap(evaluate(e, context.state.get()))`; `bindClassNorm` adds the
`bind:class` / `bind-class` normalization; `dollarText` re-interpolates
`$ident` tokens of the original text on each build. -/
inductive Accessor where
  | ev (expr : String)
  | bindClassNorm (expr : String)
  | dollarText (text : String)

/-- A compiled prop value: a literal attribute copy, an accessor, or an
event handler wrapper (`@evt` with dot modifiers, naming a context
method). -/
inductive PropVal where
  | lit (s : String)
  | acc (a : Accessor)
  | handler (modifiers : List String) (methodName : String)

/-- The `directives` object collected while classifying attributes. -/
structure Directives where
  zIf : Option Accessor
  showWhen : Option Accessor
  zShow : Option Accessor
  zFor : Option (String × Option String)
  zModel : Option String
  zOnce : Bool
  zPre : Bool
  zHtml : Option Accessor
  setHtml : Option Accessor
  setText : Option Accessor
  zTransition : Option String

def emptyDirectives : Directives :=
  { zIf := none, showWhen := none, zShow := none, zFor := none,
    zModel := none, zOnce := false, zPre := false, zHtml := none,
    setHtml := none, setText := none, zTransition := none }

def Directives.isEmpty (d : Directives) : Bool :=
  d.zIf.isNone && d.showWhen.isNone && d.zShow.isNone && d.zFor.isNone &&
  d.zModel.isNone && !d.zOnce && !d.zPre && d.zHtml.isNone &&
  d.setHtml.isNone && d.setText.isNone && d.zTransition.isNone

mutual

/-- The intermediate tree.  `vnode` is the `h`-record the element branch
returns (its key is always `null` — `parseNode` never passes one);
`inStatic` marks membership in the `staticNodes` identity map.
`onceNode` carries the VNode built once at parse time. -/
inductive INode where
  | staticText (value : String)
  | dynamicText (value : Accessor) (flags : Nat)
  | ifNode (cond : Accessor) (children : List INode) (flags : Nat)
  | forNode (item : String) (listExpr : Option String)
      (children : List INode) (flags : Nat)
  | onceNode (tag : String) (props : List (String × PropVal))
      (children : List BVal) (flags : Nat)
  | htmlNode (value : Accessor) (flags : Nat)
  | vnode (tag : String) (props : List (String × PropVal))
      (children : List INode) (flags : Nat) (inStatic : Bool)

/-- A value produced by `buildVNode`: a plain JavaScript value (strings
from static/dynamic text, `undefined` from failed accessors), a built
VNode with evaluated props, the cached `z-once` record with unevaluated
props, an html sentinel, an array from a structural directive, or a
`staticNodes`-cached intermediate node returned verbatim. -/
inductive BVal where
  | bval (v : JSVal)
  | bnode (tag : String) (props : List (String × JSVal))
      (children : List BVal) (flags : Nat)
  | bonce (tag : String) (props : List (String × PropVal))
      (children : List BVal) (flags : Nat)
  | bhtml (value : JSVal) (flags : Nat)
  | blist (items : List BVal)
  | braw (n : INode)

end

/-- JavaScript truthiness of a build result (`result || h("div",{},"")`,
and the `cachedRender &&` guard): only falsy primitives are falsy. -/
def BVal.jsTruthy : BVal → Bool
  | .bval v => v.truthy
  | _ => true

/-! ### String scanning helpers translated from the regular expressions -/

def braceOpen : Char := Char.ofNat 123
def braceClose : Char := Char.ofNat 125

/-- The full-text interpolation test: the trimmed text matches the regular
expression anchored at both ends, two opening braces, a nonempty lazy
group of non-newline characters, two closing braces.  Returns the captured
group. -/
def mustacheInner (s : String) : Option String :=
  match s.data with
  | c1 :: c2 :: rest =>
      if c1 = braceOpen ∧ c2 = braceOpen then
        match rest.reverse with
        | d1 :: d2 :: midRev =>
            if d1 = braceClose ∧ d2 = braceClose ∧ midRev ≠ [] ∧
                midRev.all (fun c => c ≠ '\n' && c ≠ '\r') then
              some ⟨midRev.reverse⟩
            else none
        | _ => none
      else none
  | _ => none

def isIdentStart (c : Char) : Bool := c.isAlpha || c = '_'
def isIdentChar (c : Char) : Bool := c.isAlphanum || c = '_'

/-- All matches of the global `$identifier` pattern, as identifier
character lists in order of occurrence.  The accumulator holds the
(reversed) identifier currently being read; every step consumes at least
one character, so the fuel of the wrapper below never runs out. -/
def scanDollarF : Nat → List Char → Option (List Char) → List (List Char)
  | 0, _, none => []
  | 0, _, some acc => [acc.reverse]
  | _ + 1, [], none => []
  | _ + 1, [], some acc => [acc.reverse]
  | fuel + 1, c :: rest, some acc =>
      if isIdentChar c then scanDollarF fuel rest (some (c :: acc))
      else if c = '$' then
        match rest with
        | [] => [acc.reverse]
        | c2 :: rest2 =>
            if isIdentStart c2 then
              acc.reverse :: scanDollarF fuel rest2 (some [c2])
            else acc.reverse :: scanDollarF fuel rest none
      else acc.reverse :: scanDollarF fuel rest none
  | fuel + 1, c :: rest, none =>
      if c = '$' then
        match rest with
        | [] => []
        | c2 :: rest2 =>
            if isIdentStart c2 then scanDollarF fuel rest2 (some [c2])
            else scanDollarF fuel rest none
      else scanDollarF fuel rest none

def scanDollar (l : List Char) : List (List Char) :=
  scanDollarF (l.length + 1) l none

def hasDollarIdent (s : String) : Bool :=
  !(scanDollar s.data).isEmpty

/-- `String.prototype.replace` with a plain string pattern: first
occurrence only (replacement-pattern `$` sequences are not modelled; no
template value contains them in the claims). -/
def replaceFirstAux (pat rep : List Char) : List Char → List Char
  | [] => []
  | c :: rest =>
      if pat.isPrefixOf (c :: rest) then rep ++ (c :: rest).drop pat.length
      else c :: replaceFirstAux pat rep rest

def replaceFirst (s pat rep : String) : String :=
  ⟨replaceFirstAux pat.data rep.data s.data⟩

def strDrop (s : String) (k : Nat) : String := ⟨s.data.drop k⟩

def splitFirstSubAux (sep : List Char) : List Char → List Char →
    Option (String × String)
  | [], _acc => none
  | c :: rest, acc =>
      if sep.isPrefixOf (c :: rest) then
        some (⟨acc.reverse⟩, ⟨(c :: rest).drop sep.length⟩)
      else splitFirstSubAux sep rest (c :: acc)

def splitFirstSub (s sep : String) : Option (String × String) :=
  splitFirstSubAux sep.data s.data []

/-- `value.split(sep).map(s => s.trim())` destructured to its first two
entries, as the `z-for` / `repeat` parsers do; a missing separator leaves
the list expression `undefined`. -/
def splitTwoTrim (s sep : String) : String × Option String :=
  match splitFirstSub s sep with
  | none => (jsTrim s, none)
  | some (a, rest) =>
      match splitFirstSub rest sep with
      | none => (jsTrim a, some (jsTrim rest))
      | some (b, _) => (jsTrim a, some (jsTrim b))

mutual

/-- `String()` coercion as used by `join` and `replace`. -/
def jsToString : JSVal → String
  | .undef => "undefined"
  | .jsnull => "null"
  | .bool b => if b then "true" else "false"
  | .num n => toString n
  | .str s => s
  | .obj _ => "[object Object]"
  | .arr l => jsToStringList l
  | .fn _ => "function"

def jsToStringList : List JSVal → String
  | [] => ""
  | [v] => jsToString v
  | v :: rest => jsToString v ++ "," ++ jsToStringList rest

end

def joinSpace : List String → String
  | [] => ""
  | [s] => s
  | s :: rest => s ++ " " ++ joinSpace rest

/-- `$ident` interpolation: the closure re-derives the result from the
original text, replacing each match in order with the evaluated value
(falsy values become the empty string, per `|| ""`). -/
def evalDollarText (text : String) (ctx : JSVal) : String :=
  (scanDollar text.data).foldl
    (fun result ident =>
      let v := unref (evaluate (⟨ident⟩ : String) ctx)
      replaceFirst result ⟨'$' :: ident⟩
        (if v.truthy then jsToString v else ""))
    text

/-- Evaluate one accessor against the current state snapshot.  The
`bind:class` normalization accepts string, array and object shapes;
`Object.entries(null)` throws (`typeof null === "object"`). -/
def evalAccessor (a : Accessor) (ctx : JSVal) : Except String JSVal :=
  match a with
  | .ev expr => .ok (unref (evaluate expr ctx))
  | .bindClassNorm expr =>
      match unref (evaluate expr ctx) with
      | .str s => .ok (.str s)
      | .arr l => .ok (.str (joinSpace (l.map jsToString)))
      | .obj fields =>
          .ok (.str (joinSpace ((fields.filter fun f => f.2.truthy).map Prod.fst)))
      | .jsnull => .error "TypeError: Object.entries(null)"
      | _ => .ok (.str "")
  | .dollarText text => .ok (.str (evalDollarText text ctx))

/-- One compiled prop evaluated at build time
(`typeof v === "function" ? v() : v`).  An event-handler prop is a
function too, so the source CALLS the wrapped handler here; its return
value (undefined for void methods) becomes the prop value — the call's
side effects lie outside the modelled core. -/
def evalPropVal (p : PropVal) (ctx : JSVal) : Except String JSVal :=
  match p with
  | .lit s => .ok (.str s)
  | .acc a => evalAccessor a ctx
  | .handler _mods _method => .ok .undef

def evalProps : List (String × PropVal) → JSVal →
    Except String (List (String × JSVal))
  | [], _ => .ok []
  | (k, p) :: rest, ctx => do
      let v ← evalPropVal p ctx
      let vs ← evalProps rest ctx
      .ok ((k, v) :: vs)

/-- `props[key] = v` on the compiled props object. -/
def propSet : List (String × PropVal) → String → PropVal →
    List (String × PropVal)
  | [], k, v => [(k, v)]
  | (k0, v0) :: rest, k, v =>
      if k0 = k then (k, v) :: rest else (k0, v0) :: propSet rest k v

/-- The running state of the attribute classification loop
(litez1.js:423-511). -/
structure AttrState where
  props : List (String × PropVal)
  dirs : Directives
  flags : Nat

/-- Classify one attribute, in the source's branch order.  The
`attr.name === ":class"` branch (litez1.js:449) is shadowed by the `":"`
prefix branch above it and is dead code, so it has no counterpart here. -/
def classifyAttr (st : AttrState) (name value : String) : AttrState :=
  if hasPrefixStr "z-bind:" name || hasPrefixStr ":" name then
    let key := if hasPrefixStr "z-bind:" name then strDrop name 7
               else strDrop name 1
    { st with props := propSet st.props key (.acc (.ev value)),
              flags := st.flags |||
                (if key = "class" then FLAG_CLASS else FLAG_PROPS) }
  else if hasPrefixStr "bind:" name then
    let key := strDrop name 5
    if key = "class" then
      { st with props := propSet st.props "class" (.acc (.bindClassNorm value)),
                flags := st.flags ||| FLAG_CLASS }
    else
      { st with props := propSet st.props key (.acc (.ev value)),
                flags := st.flags ||| FLAG_PROPS }
  else if name = "bind-class" then
    { st with props := propSet st.props "class" (.acc (.bindClassNorm value)),
              flags := st.flags ||| FLAG_CLASS }
  else if hasPrefixStr "z-on:" name || hasPrefixStr "@" name then
    let parts := jsSplitDot (if hasPrefixStr "z-on:" name then strDrop name 5
                             else strDrop name 1)
    let eventPart := parts.headD ""
    let hv : PropVal := .handler parts.tail value
    { st with props := propSet st.props ("@" ++ eventPart) hv }
  else if name = "z-if" then
    { st with dirs := { st.dirs with zIf := some (.ev value) } }
  else if name = "show-when" then
    { st with dirs := { st.dirs with showWhen := some (.ev value) } }
  else if name = "z-show" then
    { st with dirs := { st.dirs with zShow := some (.ev value) } }
  else if name = "z-for" then
    { st with dirs := { st.dirs with zFor := some (splitTwoTrim value " in ") } }
  else if name = "repeat" then
    { st with dirs := { st.dirs with zFor := some (splitTwoTrim value " from ") } }
  else if name = "z-model" then
    { st with dirs := { st.dirs with zModel := some value },
              flags := st.flags ||| FLAG_FULL_PROPS }
  else if name = "z-once" then
    { st with dirs := { st.dirs with zOnce := true } }
  else if name = "z-pre" then
    { st with dirs := { st.dirs with zPre := true } }
  else if name = "z-html" then
    { st with dirs := { st.dirs with zHtml := some (.ev value) },
              flags := st.flags ||| FLAG_TEXT }
  else if name = "set-html" then
    { st with dirs := { st.dirs with setHtml := some (.ev value) },
              flags := st.flags ||| FLAG_TEXT }
  else if name = "set-text" then
    { st with dirs := { st.dirs with setText := some (.ev value) },
              flags := st.flags ||| FLAG_TEXT }
  else if name = "z-transition" then
    { st with dirs := { st.dirs with zTransition := some value } }
  else
    { st with props := propSet st.props name (.lit value) }

/-- `{ ...context.state.get(), [node.item]: item, index }` wrapped in a
fresh `this.state(...)` container: the isolated derived scope one loop
iteration receives.  (Spreading a non-object snapshot yields an empty
object, as in JavaScript for null and primitives.) -/
def derivedScope (ctx : JSVal) (item : String) (v : JSVal) (idx : Nat) : JSVal :=
  match ctx with
  | .obj fields => .obj (setField (setField fields item v) "index" (.num idx))
  | _ => .obj (setField (setField [] item v) "index" (.num idx))

def flattenOne (l : List BVal) : List BVal :=
  l.flatMap fun b => match b with
    | .blist xs => xs
    | other => [other]

/-- Selector for the build recursion: one node, a child list, or the
per-item rows of a `z-for`. -/
inductive BuildCall where
  | one (n : INode)
  | many (l : List INode)
  | rows (item : String) (children : List INode) (xs : List JSVal) (idx : Nat)

/-- `buildVNode` (litez1.js:554-579), fuel-indexed (fuel exhaustion is an
error and never occurs in the evaluated scenarios).  `one` returns a
single build result (as a one-element list); `many` maps a child list;
`rows` is the `list.map((item, index) => ...)` body of the `for` branch:
it constructs the derived scope per the source and attaches it to copied
children — but `buildVNode` never reads that property, so the recursion
evaluates children against the outer context, and the rows are
concatenated by `.flat()`. -/
def buildRun (ctx : JSVal) : Nat → BuildCall → Except String (List BVal)
  | 0, _ => .error "out of fuel"
  | fuel + 1, .many l =>
      match l with
      | [] => .ok []
      | n :: rest => do
          let r1 ← buildRun ctx fuel (.one n)
          let r2 ← buildRun ctx fuel (.many rest)
          .ok (r1 ++ r2)
  | fuel + 1, .rows item children xs idx =>
      match xs with
      | [] => .ok []
      | v :: rest => do
          let _childScope := derivedScope ctx item v idx
          let row ← buildRun ctx fuel (.many children)
          let more ← buildRun ctx fuel (.rows item children rest (idx + 1))
          .ok (row ++ more)
  | fuel + 1, .one n =>
      match n with
      | .staticText v => .ok [.bval (.str v)]
      | .dynamicText a _f => do
          let v ← evalAccessor a ctx
          .ok [.bval v]
      | .ifNode cond children _f => do
          let c ← evalAccessor cond ctx
          if c.truthy then do
            let rs ← buildRun ctx fuel (.many children)
            .ok [.blist (flattenOne rs)]
          else .ok [.blist []]
      | .forNode item listExpr children _f =>
          let lv := match listExpr with
            | none => JSVal.undef
            | some e => unref (evaluate e ctx)
          let lv2 := if lv.truthy then lv else .arr []
          (match lv2 with
          | .arr xs =>
              if 0 < xs.length then do
                let rs ← buildRun ctx fuel (.rows item children xs 0)
                .ok [.blist rs]
              else .ok [.blist []]
          | .str s =>
              if 0 < s.length then
                .error "TypeError: list.map is not a function"
              else .ok [.blist []]
          | .obj fields =>
              (match fields.lookup "length" with
               | some (.num len) =>
                   if 0 < len then
                     .error "TypeError: list.map is not a function"
                   else .ok [.blist []]
               | _ => .ok [.blist []])
          | _ => .ok [.blist []])
      | .onceNode tag props children f => .ok [.bonce tag props children f]
      | .htmlNode a f => do
          let v ← evalAccessor a ctx
          .ok [.bhtml v f]
      | .vnode tag props children f inStatic =>
          if inStatic then .ok [.braw (.vnode tag props children f inStatic)]
          else do
            let pvals ← evalProps props ctx
            let rs ← buildRun ctx fuel (.many children)
            .ok [.bnode tag pvals (flattenOne rs) f]

/-- The single-node entry of the build recursion. -/
def buildVNode (fuel : Nat) (ctx : JSVal) (n : INode) : Except String BVal :=
  match buildRun ctx fuel (.one n) with
  | .ok l => .ok (l.headD (.bval .undef))
  | .error e => .error e

/-- Selector for the parse recursion. -/
inductive ParseCall where
  | one (n : HNode) (pre : Bool)
  | many (l : List HNode) (pre : Bool)

/-- `parseNode` (litez1.js:377-552), fuel-indexed.  A node parses to at
most one `INode`; `null` results are dropped, which composes with the
source's `.filter(Boolean)` on child lists.  `pre` is
`parentDirectives["z-pre"]`. -/
def parseRun (scopeId : String) (ctx : JSVal) : Nat → ParseCall → List INode
  | 0, _ => []
  | fuel + 1, .many l pre =>
      match l with
      | [] => []
      | hn :: rest =>
          parseRun scopeId ctx fuel (.one hn pre) ++
            parseRun scopeId ctx fuel (.many rest pre)
  | fuel + 1, .one hn pre =>
      match hn with
      | .htext s =>
          let text := jsTrim s
          if text = "" then []
          else if pre then [.staticText text]
          else
            match mustacheInner text with
            | some inner => [.dynamicText (.ev (jsTrim inner)) FLAG_TEXT]
            | none =>
                if hasDollarIdent text then
                  [.dynamicText (.dollarText text) FLAG_TEXT]
                else [.staticText text]
      | .helem tag attrs children =>
          if pre then
            [.vnode tag (attrs.map fun a => (a.1, PropVal.lit a.2))
              (parseRun scopeId ctx fuel (.many children true)) 0 false]
          else
            let st0 : AttrState :=
              { props := [("data-litez-scope", .lit scopeId)],
                dirs := emptyDirectives, flags := 0 }
            let st := attrs.foldl (fun acc a => classifyAttr acc a.1 a.2) st0
            let childNodes := parseRun scopeId ctx fuel (.many children st.dirs.zPre)
            match st.dirs.zIf with
            | some cond => [.ifNode cond childNodes st.flags]
            | none =>
            match st.dirs.showWhen with
            | some cond => [.ifNode cond childNodes st.flags]
            | none =>
            match st.dirs.zFor with
            | some (item, listExpr) => [.forNode item listExpr childNodes st.flags]
            | none =>
            if st.dirs.zOnce then
              [.onceNode tag st.props
                (childNodes.map fun c =>
                  match buildRun ctx fuel (.one c) with
                  | .ok l => l.headD (.bval .undef)
                  | .error _ => .bval .undef) 0]
            else
              let props2 := match st.dirs.zShow with
                | some a => propSet st.props "data-z-show" (.acc a)
                | none => st.props
              let props3 := match st.dirs.zModel with
                | some v => propSet props2 "data-z-model" (.lit v)
                | none => props2
              match st.dirs.zHtml with
              | some a => [.htmlNode a FLAG_TEXT]
              | none =>
              match st.dirs.setHtml with
              | some a => [.htmlNode a FLAG_TEXT]
              | none =>
              match st.dirs.setText with
              | some a => [.dynamicText a FLAG_TEXT]
              | none =>
                let props4 := match st.dirs.zTransition with
                  | some v => propSet props3 "data-z-transition" (.lit v)
                  | none => props3
                let isStat := st.dirs.isEmpty &&
                  childNodes.all fun c => match c with
                    | .staticText _ => true
                    | _ => false
                [.vnode tag props4 childNodes st.flags isStat]

/-- The `flags` field as truthiness reads it: `staticText` nodes have no
such field (undefined, falsy). -/
def flagsOf : INode → Nat
  | .staticText _ => 0
  | .dynamicText _ f => f
  | .ifNode _ _ f => f
  | .forNode _ _ _ f => f
  | .onceNode _ _ _ f => f
  | .htmlNode _ f => f
  | .vnode _ _ _ f _ => f

/-- `buildVNode(rootNode, true)` followed by
`cachedRender = result || this.h("div", {}, "")`: a `null` root builds to
`null`, falsy results are replaced by the default div (whose `""` child is
wrapped into a one-element array by `h`). -/
def buildAndCache (fuel : Nat) (ctx : JSVal) (rootNode : Option INode) :
    Except String BVal := do
  let result ← match rootNode with
    | none => pure (BVal.bval .jsnull)
    | some rn => buildVNode fuel ctx rn
  if result.jsTruthy then pure result
  else pure (BVal.bnode "div" [] [.bval (.str "")] 0)

/-- One invocation of the `render` closure returned by `compileTemplate`
(litez1.js:583-593): with a cached value and falsy `rootNode.flags` the
cached reference is returned unchanged (third component `true`);
otherwise the tree is rebuilt and re-cached.  With a cached value and a
`null` root node, reading `rootNode.flags` throws a TypeError that —
unlike at compile time — nothing in `render` catches. -/
def renderOnce (fuel : Nat) (ctx : JSVal) (rootNode : Option INode)
    (cached : Option BVal) : Except String (BVal × Option BVal × Bool) :=
  match cached with
  | some c =>
      match rootNode with
      | none => .error "TypeError: cannot read flags of null"
      | some rn =>
          if flagsOf rn = 0 then .ok (c, some c, true)
          else do
            let r ← buildAndCache fuel ctx rootNode
            .ok (r, some r, false)
  | none => do
      let r ← buildAndCache fuel ctx rootNode
      .ok (r, some r, false)


/-! ### Static templates and the render cache (C3), and the `z-for`
derived scope (C8) -/

/-- A text node with no `\x7b\x7b...\x7d\x7d` match and no `$identifier`
token: compiled without bindings. -/
def staticTextHost (s : String) : Bool :=
  (mustacheInner (jsTrim s)).isNone && !hasDollarIdent (jsTrim s)

/-- An attribute name that the classifier copies verbatim: no binding
prefix, no event prefix, not a directive. -/
def staticAttrName (n : String) : Bool :=
  !hasPrefixStr "z-bind:" n && !hasPrefixStr ":" n &&
  !hasPrefixStr "bind:" n && n != "bind-class" &&
  !hasPrefixStr "z-on:" n && !hasPrefixStr "@" n &&
  n != "z-if" && n != "show-when" && n != "z-show" && n != "z-for" &&
  n != "repeat" && n != "z-model" && n != "z-once" && n != "z-pre" &&
  n != "z-html" && n != "set-html" && n != "set-text" && n != "z-transition"

mutual

/-- A binding-free, directive-free (static) template tree. -/
def staticHost : HNode → Bool
  | .htext s => staticTextHost s
  | .helem _tag attrs children =>
      attrs.all (fun a => staticAttrName a.1) && staticHostList children

def staticHostList : List HNode → Bool
  | [] => true
  | c :: rest => staticHost c && staticHostList rest

end

theorem classifyAttr_plain (st : AttrState) (name value : String)
    (hstat : staticAttrName name = true) :
    classifyAttr st name value =
      { st with props := propSet st.props name (.lit value) } := by
  simp only [staticAttrName, Bool.and_eq_true, Bool.not_eq_true',
    bne_iff_ne, ne_eq] at hstat
  obtain ⟨⟨⟨⟨⟨⟨⟨⟨⟨⟨⟨⟨⟨⟨⟨⟨⟨h1, h2⟩, h3⟩, h4⟩, h5⟩, h6⟩, h7⟩, h8⟩, h9⟩,
    h10⟩, h11⟩, h12⟩, h13⟩, h14⟩, h15⟩, h16⟩, h17⟩, h18⟩ := hstat
  simp [classifyAttr, h1, h2, h3, h4, h5, h6, h7, h8, h9, h10, h11, h12,
    h13, h14, h15, h16, h17, h18]

theorem classifyFold_plain (attrs : List (String × String)) :
    ∀ st : AttrState, (∀ a ∈ attrs, staticAttrName a.1 = true) →
      (attrs.foldl (fun acc a => classifyAttr acc a.1 a.2) st).dirs = st.dirs ∧
      (attrs.foldl (fun acc a => classifyAttr acc a.1 a.2) st).flags = st.flags := by
  induction attrs with
  | nil => intro st _; exact ⟨rfl, rfl⟩
  | cons a rest ih =>
      intro st hall
      have ha : staticAttrName a.1 = true := hall a (List.mem_cons_self _ _)
      have hrest : ∀ b ∈ rest, staticAttrName b.1 = true := fun b hb =>
        hall b (List.mem_cons_of_mem _ hb)
      simp only [List.foldl_cons, classifyAttr_plain st a.1 a.2 ha]
      exact ih _ hrest

/-- A static host node parses to an intermediate node whose `flags` field
is zero (a `staticText`, or an element vnode whose attribute fold never
set a flag), which is what the render cache's `!rootNode.flags` guard
tests. -/
theorem parse_static_flags (scopeId : String) (ctx : JSVal) (fuel : Nat)
    (hn : HNode) (hstat : staticHost hn = true) :
    ∀ n ∈ parseRun scopeId ctx fuel (.one hn false), flagsOf n = 0 := by
  match fuel with
  | 0 => intro n hn2; simp [parseRun] at hn2
  | fuel + 1 =>
      match hn with
      | .htext s =>
          intro n hmem
          simp only [staticHost, staticTextHost, Bool.and_eq_true,
            Option.isNone_iff_eq_none, Bool.not_eq_true'] at hstat
          simp only [parseRun] at hmem
          by_cases he : jsTrim s = ""
          · simp [he] at hmem
          · simp only [he, if_false, if_neg he, hstat.1, hstat.2] at hmem
            simp only [Bool.false_eq_true, if_false] at hmem
            rcases List.mem_singleton.mp hmem with rfl
            rfl
      | .helem tag attrs children =>
          intro n hmem
          simp only [staticHost, Bool.and_eq_true, List.all_eq_true] at hstat
          have hfold := classifyFold_plain attrs
            { props := [("data-litez-scope", .lit scopeId)],
              dirs := emptyDirectives, flags := 0 }
            (fun a ha => hstat.1 a ha)
          simp only [parseRun, hfold.1, hfold.2] at hmem
          simp only [emptyDirectives] at hmem
          simp only [Directives.isEmpty, emptyDirectives] at hmem
          rcases List.mem_singleton.mp hmem with rfl
          rfl

theorem renderOnce_first_shape (fuel : Nat) (ctx : JSVal)
    (root : Option INode) (r : BVal) (c : Option BVal) (b : Bool)
    (hok : renderOnce fuel ctx root none = .ok (r, c, b)) :
    c = some r ∧ b = false := by
  cases hb : buildAndCache fuel ctx root with
  | ok v =>
      have hok2 : Except.ok (ε := String) (v, some v, false) = .ok (r, c, b) := by
        rw [← hok]
        show _ = renderOnce fuel ctx root none
        simp only [renderOnce]
        rw [hb]
        rfl
      cases hok2
      exact ⟨rfl, rfl⟩
  | error e =>
      have hok2 : Except.error (α := BVal × Option BVal × Bool) e
          = .ok (r, c, b) := by
        rw [← hok]
        show _ = renderOnce fuel ctx root none
        simp only [renderOnce]
        rw [hb]
        rfl
      cases hok2

/-- **C3** (amended): for every static (binding- and directive-free)
template whose content parses to a non-null intermediate root, once the
first `render()` call has produced and cached a result, the second — and,
since the cache is left unchanged, every later — call takes the
`cachedRender && !rootNode.flags` short circuit and returns the identical
cached value without rebuilding. -/
theorem static_template_second_render_returns_cached
    (fuelP fuelR : Nat) (scopeId : String) (ctxP ctxR : JSVal)
    (hn : HNode) (rn : INode) (r1 : BVal) (c1 : Option BVal) (b1 : Bool)
    (hstat : staticHost hn = true)
    (hparse : parseRun scopeId ctxP fuelP (.one hn false) = [rn])
    (hfirst : renderOnce fuelR ctxR (some rn) none = .ok (r1, c1, b1)) :
    c1 = some r1 ∧
    renderOnce fuelR ctxR (some rn) c1 = .ok (r1, some r1, true) := by
  have hflags : flagsOf rn = 0 := by
    apply parse_static_flags scopeId ctxP fuelP hn hstat
    rw [hparse]
    exact List.mem_singleton.mpr rfl
  have hshape := renderOnce_first_shape fuelR ctxR (some rn) r1 c1 b1 hfirst
  refine ⟨hshape.1, ?_⟩
  rw [hshape.1]
  simp [renderOnce, hflags]

/-- Witness for C3: the static template `<div id="x">hello</div>`.  The
parse produces a flag-free static vnode; the first render call caches the
`staticNodes` entry, and the second call returns that very cached value
through the cache short circuit. -/
theorem static_template_second_render_returns_cached_witness :
    renderOnce 10 (.obj [])
      (some (.vnode "div" [("data-litez-scope", .lit "s"), ("id", .lit "x")]
        [.staticText "hello"] 0 true))
      (some (.braw (.vnode "div"
        [("data-litez-scope", .lit "s"), ("id", .lit "x")]
        [.staticText "hello"] 0 true))) =
    .ok (.braw (.vnode "div"
          [("data-litez-scope", .lit "s"), ("id", .lit "x")]
          [.staticText "hello"] 0 true),
         some (.braw (.vnode "div"
          [("data-litez-scope", .lit "s"), ("id", .lit "x")]
          [.staticText "hello"] 0 true)), true) := by
  have hmain := static_template_second_render_returns_cached 10 10 "s"
    (.obj []) (.obj [])
    (.helem "div" [("id", "x")] [.htext "hello"])
    (.vnode "div" [("data-litez-scope", .lit "s"), ("id", .lit "x")]
      [.staticText "hello"] 0 true)
    (.braw (.vnode "div" [("data-litez-scope", .lit "s"), ("id", .lit "x")]
      [.staticText "hello"] 0 true))
    (some (.braw (.vnode "div"
      [("data-litez-scope", .lit "s"), ("id", .lit "x")]
      [.staticText "hello"] 0 true)))
    false
    (by rfl) (by rfl) (by rfl)
  exact hmain.2

/-- **C3, counterexample**: a whitespace-only template contains no
bindings or directives, yet its content parses to `null`
(`parseNode` trims the text to emptiness).  The first `render()` call
then builds `null`, caches the fallback `h("div", {}, "")`, and the
second call — with `cachedRender` set — evaluates `rootNode.flags` on
`null` and throws a TypeError instead of returning the cached
reference, refuting the claim as stated for this static template. -/
theorem static_template_cached_counterexample :
    staticHost (.htext " ") = true ∧
    parseRun "s" (.obj []) 10 (.one (.htext " ") false) = [] ∧
    renderOnce 10 (.obj []) none none =
      .ok (BVal.bnode "div" [] [.bval (.str "")] 0,
           some (BVal.bnode "div" [] [.bval (.str "")] 0), false) ∧
    renderOnce 10 (.obj []) none
      (some (BVal.bnode "div" [] [.bval (.str "")] 0)) =
      .error "TypeError: cannot read flags of null" := by
  refine ⟨?_, rfl, rfl, rfl⟩
  simp only [staticHost, staticTextHost, Bool.and_eq_true]
  exact ⟨by rfl, by rfl⟩

/-- **C8**: the `for` branch builds, per iteration, exactly the derived
scope the claim describes — the parent snapshot extended with the loop
variable bound to the current item and with `index` — and an expression
naming the loop variable evaluates to the current item against that
scope; but the branch only attaches the scope to a copied node property
that `buildVNode` never reads, so the iteration's children are evaluated
against the outer context, where the loop variable is undefined: the
built child is `undefined`, not the item. -/
theorem for_scope_built_but_children_use_outer_context :
    derivedScope (.obj [("items", .arr [.str "a"])]) "x" (.str "a") 0 =
      .obj [("items", .arr [.str "a"]), ("x", .str "a"), ("index", .num 0)] ∧
    evaluate "x"
      (derivedScope (.obj [("items", .arr [.str "a"])]) "x" (.str "a") 0) =
      .str "a" ∧
    buildVNode 10 (.obj [("items", .arr [.str "a"])])
      (.forNode "x" (some "items") [.dynamicText (.ev "x") 1] 0) =
      .ok (.blist [.bval .undef]) ∧
    evaluate "x" (.obj [("items", .arr [.str "a"])]) = .undef := by
  exact ⟨rfl, rfl, rfl, rfl⟩

end LiteZ
